import Mathlib

/-!
Verification model of the reva decomposed-filesystem revision subsystem.

Go strings are modelled as Lean strings; byte-level operations of the Go
standard library (strings.SplitN, strings.HasPrefix, strings.Contains) are
mirrored on the underlying character list (String.data).  Go errors are
modelled by an explicit error type, filesystem state by an explicit record,
and collaborator calls (permission engine, blobstore, tree propagator) by
environment-supplied data, so every operation of
pkg/storage/utils/decomposedfs becomes a pure Lean function.
-/

namespace Reva

/-- node.RevisionIDDelimiter from node/revisions.go: the reserved substring
separating a node id from a revision timestamp inside a revision key. -/
def RevisionIDDelimiter : String := ".REV."

/-- Go strings.SplitN(s, sep, 2) on character lists: find the first occurrence
of `sep` in `s` and split there, dropping the separator.  `none` means `sep`
does not occur in `s` (Go returns a single part in that case).  Faithful to the
Go behaviour for a nonempty separator. -/
def splitOnFirstL (sep : List Char) : List Char → Option (List Char × List Char)
  | [] => if sep.isPrefixOf [] then some ([], []) else none
  | c :: cs =>
    if sep.isPrefixOf (c :: cs) then some ([], (c :: cs).drop sep.length)
    else
      match splitOnFirstL sep cs with
      | some (a, b) => some (c :: a, b)
      | none => none

/-- node.SplitRevisionKey from node/revisions.go: split a revision key into
node id and revision timestamp via strings.SplitN(key, ".REV.", 2); a key
without the delimiter is returned unchanged, paired with an empty string. -/
def SplitRevisionKey (revisionKey : String) : String × String :=
  match splitOnFirstL RevisionIDDelimiter.data revisionKey.data with
  | some (a, b) => (⟨a⟩, ⟨b⟩)
  | none => (revisionKey, "")

/-- node.JoinRevisionKey from node/revisions.go. -/
def JoinRevisionKey (nodeID revision : String) : String :=
  nodeID ++ RevisionIDDelimiter ++ revision

/-- splitRevKey? is the Option view of strings.SplitN(key, ".REV.", 2) used by
the decomposedfs operations: `some (id, ts)` exactly when the split yields two
parts. -/
def splitRevKey? (revisionKey : String) : Option (String × String) :=
  match splitOnFirstL RevisionIDDelimiter.data revisionKey.data with
  | some (a, b) => some (⟨a⟩, ⟨b⟩)
  | none => none

/-- Attribute values: the metadata backend stores byte strings for string
attributes and decimal-encoded int64s for integer attributes; the typed
accessors (SetString / SetInt64 / Int64) are modelled by a tagged value. -/
inductive Val where
  | vs (s : String)
  | vi (i : Int)
deriving DecidableEq

/-- Error taxonomy of pkg/errtypes as used by the revision subsystem; `wrapped`
models errors.Wrapf of a collaborator error and `fault` models an injected
collaborator failure. -/
inductive Err where
  | notFound (msg : String)
  | permissionDenied (msg : String)
  | internal (msg : String)
  | wrapped (msg : String)
  | fault (msg : String)
deriving DecidableEq

/-- metadata/prefixes.ChecksumPrefix: common stem of the checksum attributes. -/
def ChecksumAttrStem : String := "user.ocis.cs."

def TypeAttr : String := "user.ocis.type"

def BlobIDAttr : String := "user.ocis.blobid"

def BlobsizeAttr : String := "user.ocis.blobsize"

def MTimeAttr : String := "user.ocis.mtime"

def ParentIDAttr : String := "user.ocis.parentid"

def NameAttr : String := "user.ocis.name"

/-- Modelled from the spec: the attribute written by Node.SetCurrentRevision
(not in src); its exact name is immaterial to the claims. -/
def CurrentRevisionAttr : String := "user.ocis.revision.current"

/-- Go strings.HasPrefix. -/
def goHasPrefixS (s pre : String) : Bool := pre.data.isPrefixOf s.data

/-- First-match lookup in an attribute association list. -/
def getA : List (String × Val) → String → Option Val
  | [], _ => none
  | (k, v) :: rest, key => if k = key then some v else getA rest key

/-- Replace-or-append update of an attribute association list. -/
def setA : List (String × Val) → String → Val → List (String × Val)
  | [], key, v => [(key, v)]
  | (k, w) :: rest, key, v =>
    if k = key then (k, v) :: rest else (k, w) :: setA rest key v

def getStrD (attrs : List (String × Val)) (k d : String) : String :=
  match getA attrs k with
  | some (.vs s) => s
  | _ => d

def getIntD (attrs : List (String × Val)) (k : String) (d : Int) : Int :=
  match getA attrs k with
  | some (.vi i) => i
  | _ => d

/-- The filesystem and metadata-backend state: the set of existing paths, the
attribute set attached to each path, and each path's filesystem mtime. -/
structure Sys where
  files : List String
  attrs : String → List (String × Val)
  fmtimes : String → Option String

def updF {β : Type} (f : String → β) (x : String) (v : β) : String → β :=
  fun y => if y = x then v else f y

def addFile (p : String) (st : Sys) : Sys := { st with files := p :: st.files }

def removeFile (p : String) (st : Sys) : Sys :=
  { st with files := st.files.filter (fun q => q != p) }

def setAttr (p k : String) (v : Val) (st : Sys) : Sys :=
  { st with attrs := updF st.attrs p (setA (st.attrs p) k v) }

/-- MetadataBackend().Purge: drop all metadata attached to a path. -/
def purgePath (p : String) (st : Sys) : Sys :=
  { st with attrs := updF st.attrs p [] }

def setFMtime (p m : String) (st : Sys) : Sys :=
  { st with fmtimes := updF st.fmtimes p (some m) }

/-- Lookup.InternalPath: the physical path of a node is a pure function of
space id and node id (spec section 4.1). -/
def internalPath (spaceID id : String) : String := spaceID ++ "/" ++ id

def lockfilePath (p : String) : String := p ++ ".mlock"

def metadataPath (p : String) : String := p ++ ".mpk"

/-- filepath.Join of two segments. -/
def pjoin (a b : String) : String := a ++ "/" ++ b

/-- In-memory node handle (node.Node): identity, existence flag and the blob
pointer cached from the metadata backend. -/
structure Node where
  spaceID : String
  id : String
  parentID : String
  name : String
  nExists : Bool
  blobID : String
  blobsize : Int
deriving DecidableEq

/-- Modelled from the spec: node.ReadNode / Lookup resolution (spec 4.1) is
not in src; a not-found condition from the backend surfaces as Exists=false,
never as an error, and attributes are populated from the metadata backend.
Existence is modelled as presence of the node's physical path. -/
def readNode (st : Sys) (spaceID id : String) : Node :=
  { spaceID := spaceID, id := id,
    parentID := getStrD (st.attrs (internalPath spaceID id)) ParentIDAttr "",
    name := getStrD (st.attrs (internalPath spaceID id)) NameAttr "",
    nExists := st.files.contains (internalPath spaceID id),
    blobID := getStrD (st.attrs (internalPath spaceID id)) BlobIDAttr "",
    blobsize := getIntD (st.attrs (internalPath spaceID id)) BlobsizeAttr 0 }

/-- The named permission booleans consumed by the revision operations. -/
structure Perms where
  stat : Bool
  listFileVersions : Bool
  initiateFileDownload : Bool
  restoreFileVersion : Bool
deriving DecidableEq

/-- Collaborator results and injected failures for one run: the permission
set, the error returned by each fallible collaborator call (none = success),
the wall clock, and the backend predicates. -/
structure Env where
  perms : Perms
  permErr : Option Err
  checkLockErr : Option Err
  lockErr : Option Err
  createFails : Bool
  copy1Fails : Bool
  chtimesFails : Bool
  setCurFails : Bool
  copy2Fails : Bool
  writeRevMetaFails : Bool
  blobDeleteErr : Option Err
  propagateErr : Option Err
  now : String
  refStr : String
  isMetaFile : String → Bool
  calcEtag : String → String → Option String
  download : Node → Except String Unit

/-- Node.RevisionNode from node/revisions.go: a handle for the revision
without reading metadata; Exists and the blob fields keep their zero values. -/
def revisionNode (n : Node) (revision : String) : Node :=
  { spaceID := n.spaceID, id := JoinRevisionKey n.id revision,
    parentID := n.parentID, name := n.name,
    nExists := false, blobID := "", blobsize := 0 }

/-- Node.ReadRevision from node/revisions.go: read the revision node's
metadata; a backend not-exist condition (modelled as an empty attribute set)
is swallowed and yields Exists=false with no error, while a missing or
non-integer blobsize attribute is an error (Attributes.Int64). -/
def readRevision (st : Sys) (n : Node) (revision : String) : Except Err Node :=
  let rn := revisionNode n revision
  match st.attrs (internalPath rn.spaceID rn.id) with
  | [] => .ok rn
  | a :: rest =>
    match getA (a :: rest) BlobsizeAttr with
    | some (.vi i) =>
        .ok { rn with nExists := true,
                      blobID := getStrD (a :: rest) BlobIDAttr "", blobsize := i }
    | _ => .error (.internal "invalid blobsize")

/-- Modelled from the spec: Node.GetMTime is not in src; it reads the mtime
attribute from the metadata backend, falling back to the file's modification
time.  Times are carried as their RFC3339Nano-formatted strings, so
formatting is the identity. -/
def getMTime (st : Sys) (p : String) : Except Err String :=
  match getA (st.attrs p) MTimeAttr with
  | some (.vs t) => .ok t
  | some (.vi _) => .error (.internal "invalid mtime")
  | none =>
    match st.fmtimes p with
    | some t => .ok t
    | none => .error (.internal "no mtime")

/-- filepath.Glob(nodePath + ".REV." + "*") over the modelled file list. -/
def globRev (st : Sys) (np : String) : List String :=
  st.files.filter (fun p => goHasPrefixS p (np ++ RevisionIDDelimiter))

/-- One element of the ListRevisions result. -/
structure FileVersion where
  key : String
  mtime : String
  size : Int
  etag : String
deriving DecidableEq

/-- Body of the ListRevisions glob loop from revisions.go: one glob match
either contributes a FileVersion or is skipped (metadata-backend file,
malformed name, unreadable revision metadata, nonexistent revision,
unreadable mtime, or etag failure). -/
def listEntry (env : Env) (st : Sys) (n : Node) (item : String) : Option FileVersion :=
  if env.isMetaFile item then none
  else
    match splitOnFirstL RevisionIDDelimiter.data item.data with
    | none => none
    | some (_, rts) =>
      match readRevision st n ⟨rts⟩ with
      | .error _ => none
      | .ok rn =>
        if rn.nExists = false then none
        else
          match getMTime st (internalPath rn.spaceID rn.id) with
          | .error _ => none
          | .ok rmtime =>
            match env.calcEtag rn.id rmtime with
            | none => none
            | some etag =>
              some { key := rn.id, mtime := rmtime, size := rn.blobsize, etag := etag }

/-- Decomposedfs.ListRevisions from revisions.go: resolve the node, require
existence and the ListFileVersions permission (PermissionDenied when the
caller may Stat, NotFound otherwise), then glob the node's directory and
accumulate the surviving entries; the loop skips are in listEntry. -/
def listRevisions (env : Env) (st : Sys) (resolved : Except Err Node) :
    Except Err (List FileVersion) :=
  match resolved with
  | .error e => .error e
  | .ok n =>
    if n.nExists = false then .error (.notFound (pjoin n.parentID n.name))
    else
      match env.permErr with
      | some e => .error e
      | none =>
        if env.perms.listFileVersions = false then
          if env.perms.stat then .error (.permissionDenied env.refStr)
          else .error (.notFound env.refStr)
        else
          .ok ((globRev st (internalPath n.spaceID n.id)).filterMap (listEntry env st n))

/-- Decomposedfs.getRevisionNode from revisions.go: validate the key format,
read the owning node, and check the supplied permission predicate; on a
failed permission check it returns PermissionDenied unconditionally (no Stat
distinction). -/
def getRevisionNode (env : Env) (st : Sys) (spaceID revisionKey : String)
    (hasPermission : Perms → Bool) : Except Err Node :=
  match splitRevKey? revisionKey with
  | none => .error (.notFound revisionKey)
  | some (kp0, _) =>
    let n := readNode st spaceID kp0
    if n.nExists = false then .error (.notFound (pjoin n.parentID n.name))
    else
      match env.permErr with
      | some e => .error e
      | none =>
        if hasPermission env.perms then .ok n
        else .error (.permissionDenied (pjoin n.parentID n.name))

/-- Result of DeleteRevision: the returned error, the final state, and the
node handle passed to blobstore.Delete (the audit of the blobstore call). -/
structure DelOut where
  res : Except Err Unit
  st : Sys
  blobDeleted : Option Node

/-- Decomposedfs.DeleteRevision from revisions.go: resolve and permission-gate
via getRevisionNode (RestoreFileVersion), os.RemoveAll the revision's path
(file and attached metadata), then call blobstore.Delete with the node handle
returned by getRevisionNode. -/
def deleteRevision (env : Env) (st : Sys) (spaceID revisionKey : String) : DelOut :=
  match getRevisionNode env st spaceID revisionKey (fun p => p.restoreFileVersion) with
  | .error e => ⟨.error e, st, none⟩
  | .ok n =>
    let rp := internalPath n.spaceID revisionKey
    let st1 := purgePath rp (removeFile rp st)
    match env.blobDeleteErr with
    | some e => ⟨.error e, st1, some n⟩
    | none => ⟨.ok (), st1, some n⟩

/-- Result of DownloadRevision: the returned error and the revision node
handle passed to blobstore.Download (the audit of the blobstore call). -/
structure DlOut where
  res : Except Err Unit
  downloaded : Option Node

/-- Decomposedfs.DownloadRevision from revisions.go: validate the key, read
the owning node, require ListFileVersions and InitiateFileDownload
(PermissionDenied when the caller may Stat, NotFound otherwise), read the
revision node, and hand it to the blobstore; blobstore errors are wrapped and
no existence check is made on the revision node. -/
def downloadRevision (env : Env) (st : Sys) (spaceID revisionKey : String) : DlOut :=
  match splitRevKey? revisionKey with
  | none => ⟨.error (.notFound revisionKey), none⟩
  | some (kp0, kp1) =>
    let n := readNode st spaceID kp0
    if n.nExists = false then ⟨.error (.notFound (pjoin n.parentID n.name)), none⟩
    else
      match env.permErr with
      | some e => ⟨.error e, none⟩
      | none =>
        if (!env.perms.listFileVersions || !env.perms.initiateFileDownload) = true then
          if env.perms.stat then ⟨.error (.permissionDenied env.refStr), none⟩
          else ⟨.error (.notFound env.refStr), none⟩
        else
          match readRevision st n kp1 with
          | .error _ => ⟨.error (.wrapped "could not read revision"), none⟩
          | .ok rn =>
            match env.download rn with
            | .error m => ⟨.error (.wrapped m), some rn⟩
            | .ok _ => ⟨.ok (), some rn⟩

/-- All permissions granted: the baseline witness permission set. -/
def permsAll : Perms :=
  { stat := true, listFileVersions := true,
    initiateFileDownload := true, restoreFileVersion := true }

/-- Baseline witness environment: every collaborator call succeeds. -/
def envBase : Env :=
  { perms := permsAll, permErr := none, checkLockErr := none, lockErr := none,
    createFails := false, copy1Fails := false, chtimesFails := false,
    setCurFails := false, copy2Fails := false, writeRevMetaFails := false,
    blobDeleteErr := none, propagateErr := none,
    now := "NOW", refStr := "ref",
    isMetaFile := fun p => goHasPrefixS p "meta:",
    calcEtag := fun i m => some (i ++ m),
    download := fun _ => .ok () }

def stEmpty : Sys := { files := [], attrs := fun _ => [], fmtimes := fun _ => none }

def nW : Node :=
  { spaceID := "s", id := "n1", parentID := "p1", name := "f1",
    nExists := true, blobID := "b0", blobsize := 10 }

def stC10 : Sys :=
  { files := [internalPath "s" "n1"],
    attrs := fun p =>
      if p = internalPath "s" "n1" then
        [(ParentIDAttr, .vs "p1"), (NameAttr, .vs "f1"),
         (BlobIDAttr, .vs "b0"), (BlobsizeAttr, .vi 10), (MTimeAttr, .vs "T0")]
      else [],
    fmtimes := fun _ => none }


def stDel : Sys :=
  { files := [internalPath "s" "n1", internalPath "s" "n1.REV.t1"],
    attrs := fun p =>
      if p = internalPath "s" "n1" then
        [(ParentIDAttr, .vs "p1"), (NameAttr, .vs "f1"),
         (BlobIDAttr, .vs "b-current"), (BlobsizeAttr, .vi 10), (MTimeAttr, .vs "T0")]
      else if p = internalPath "s" "n1.REV.t1" then
        [(BlobIDAttr, .vs "b-rev"), (BlobsizeAttr, .vi 5)]
      else [],
    fmtimes := fun _ => none }

/-- State for the timestamp-collision restore: the node's current mtime "t1"
equals the target revision's timestamp, so the new revision path coincides
with the restored revision's path (the collision the source's FIXME flags). -/
def stCol : Sys :=
  { files := [internalPath "s" "n1", internalPath "s" "n1.REV.t1"],
    attrs := fun p =>
      if p = internalPath "s" "n1" then
        [(ParentIDAttr, .vs "p1"), (NameAttr, .vs "f1"),
         (BlobIDAttr, .vs "b-cur"), (BlobsizeAttr, .vi 10), (MTimeAttr, .vs "t1")]
      else if p = internalPath "s" "n1.REV.t1" then
        [(BlobIDAttr, .vs "b-rev"), (BlobsizeAttr, .vi 5)]
      else [],
    fmtimes := fun _ => none }

/-- The attribute filter RestoreRevision passes to CopyMetadataWithSourceLock
when copying the current node's blob metadata onto the new revision:
checksums, type, blob id, blob size and mtime are copied unchanged. -/
def revCopyFilter (attributeName : String) (value : Val) : Val × Bool :=
  (value, goHasPrefixS attributeName ChecksumAttrStem ||
    attributeName == TypeAttr || attributeName == BlobIDAttr ||
    attributeName == BlobsizeAttr || attributeName == MTimeAttr)

/-- The attribute filter RestoreRevision passes to CopyMetadata when promoting
the restored revision's attributes onto the node: mtime is replaced by "now"
and always copied; checksums, type, blob id and blob size are copied. -/
def promoteFilter (now : String) (attributeName : String) (value : Val) : Val × Bool :=
  if attributeName == MTimeAttr then (.vs now, true)
  else
    (value, goHasPrefixS attributeName ChecksumAttrStem ||
      attributeName == TypeAttr || attributeName == BlobIDAttr ||
      attributeName == BlobsizeAttr)

/-- One pass over the source attribute list: each entry surviving the filter
is written (possibly rewritten) onto the target path. -/
def copyAttrsList : List (String × Val) → String → (String → Val → Val × Bool) → Sys → Sys
  | [], _, _, st => st
  | (k, v) :: rest, tgt, f, st =>
    let fv := f k v
    copyAttrsList rest tgt f (if fv.2 then setAttr tgt k fv.1 st else st)

/-- Modelled from the spec: Lookup.CopyMetadata / CopyMetadataWithSourceLock
(not in src) read all attributes of the source path, apply the filter to each
(name, value) pair, and write the surviving attributes onto the target path,
leaving other target attributes alone. -/
def copyMetadata (src tgt : String) (f : String → Val → Val × Bool) (st : Sys) : Sys :=
  copyAttrsList (st.attrs src) tgt f st

/-- Result of RestoreRevision: the returned error, the final state, and the
size delta handed to tree propagation (none when Propagate was not reached). -/
structure RROut where
  res : Except Err Unit
  st : Sys
  propagated : Option Int

/-- The deferred compensation in RestoreRevision: on any error return after
the new revision file was touched, remove that file and purge its metadata. -/
def rollbackRev (p : String) (st : Sys) : Sys := purgePath p (removeFile p st)

/-- Decomposedfs.RestoreRevision from revisions.go with the Go control flow:
validate the key, read the node, check permissions (PermissionDenied when the
caller may Stat, NotFound otherwise), CheckLock, take the exclusive node
lock, read the node's mtime, touch the new revision keyed by that mtime, copy
blob metadata node -> new revision, Chtimes, SetCurrentRevision, copy blob
metadata restored revision -> node (mtime replaced by now), read the restored
revision's blob size, best-effort drop of the restored revision's artifacts,
then propagate revisionSize - n.Blobsize; every error return after the touch
passes through the deferred rollback. -/
def restoreRevision (env : Env) (st : Sys) (spaceID revisionKey : String) : RROut :=
  match splitRevKey? revisionKey with
  | none => ⟨.error (.notFound revisionKey), st, none⟩
  | some (kp0, _) =>
    let n := readNode st spaceID kp0
    if n.nExists = false then ⟨.error (.notFound (pjoin n.parentID n.name)), st, none⟩
    else
      match env.permErr with
      | some e => ⟨.error e, st, none⟩
      | none =>
        if env.perms.restoreFileVersion = false then
          if env.perms.stat then ⟨.error (.permissionDenied env.refStr), st, none⟩
          else ⟨.error (.notFound env.refStr), st, none⟩
        else
          match env.checkLockErr with
          | some e => ⟨.error e, st, none⟩
          | none =>
            match env.lockErr with
            | some e => ⟨.error e, st, none⟩
            | none =>
              let nodePath := internalPath spaceID kp0
              let st0 := addFile (lockfilePath nodePath) st
              match getMTime st0 nodePath with
              | .error e => ⟨.error e, st0, none⟩
              | .ok m =>
                let newRevisionPath := internalPath spaceID (kp0 ++ RevisionIDDelimiter ++ m)
                if env.createFails then ⟨.error (.fault "create"), st0, none⟩
                else
                  let st1 := addFile newRevisionPath st0
                  if env.copy1Fails then
                    ⟨.error (.internal "failed to copy blob xattrs to version node"),
                      rollbackRev newRevisionPath st1, none⟩
                  else
                    let st2 := copyMetadata nodePath newRevisionPath revCopyFilter st1
                    if env.chtimesFails then
                      ⟨.error (.internal "failed to change mtime of version node"),
                        rollbackRev newRevisionPath st2, none⟩
                    else
                      let st3 := setFMtime newRevisionPath m st2
                      if env.setCurFails then
                        ⟨.error (.internal "failed to update revision for node"),
                          rollbackRev newRevisionPath st3, none⟩
                      else
                        let st4 := setAttr nodePath CurrentRevisionAttr (.vs revisionKey) st3
                        let restoredRevisionPath := internalPath spaceID revisionKey
                        if env.copy2Fails then
                          ⟨.error (.internal "failed to copy blob xattrs to old revision to node"),
                            rollbackRev newRevisionPath st4, none⟩
                        else
                          let st5 := copyMetadata restoredRevisionPath nodePath
                            (promoteFilter env.now) st4
                          match getA (st5.attrs restoredRevisionPath) BlobsizeAttr with
                          | some (.vi revisionSize) =>
                            let st6 := purgePath restoredRevisionPath
                              (removeFile (lockfilePath restoredRevisionPath)
                                (removeFile (metadataPath restoredRevisionPath)
                                  (removeFile restoredRevisionPath st5)))
                            let sizeDiff := revisionSize - n.blobsize
                            match env.propagateErr with
                            | some e =>
                              ⟨.error e, rollbackRev newRevisionPath st6, some sizeDiff⟩
                            | none => ⟨.ok (), st6, some sizeDiff⟩
                          | _ =>
                            ⟨.error (.internal "failed to read blob size xattr from old revision"),
                              rollbackRev newRevisionPath st5, none⟩

/-- The state of a RestoreRevision run after the metadata swap (through the
second CopyMetadata), before the old-revision drop. -/
def restoreMidState (env : Env) (st : Sys) (spaceID kp0 revisionKey m : String) : Sys :=
  copyMetadata (internalPath spaceID revisionKey) (internalPath spaceID kp0)
    (promoteFilter env.now)
    (setAttr (internalPath spaceID kp0) CurrentRevisionAttr (.vs revisionKey)
      (setFMtime (internalPath spaceID (kp0 ++ RevisionIDDelimiter ++ m)) m
        (copyMetadata (internalPath spaceID kp0)
          (internalPath spaceID (kp0 ++ RevisionIDDelimiter ++ m)) revCopyFilter
          (addFile (internalPath spaceID (kp0 ++ RevisionIDDelimiter ++ m))
            (addFile (lockfilePath (internalPath spaceID kp0)) st)))))

/-- The state of a successful RestoreRevision run after the old-revision
artifacts were dropped and its metadata purged. -/
def restoreEndState (env : Env) (st : Sys) (spaceID kp0 revisionKey m : String) : Sys :=
  purgePath (internalPath spaceID revisionKey)
    (removeFile (lockfilePath (internalPath spaceID revisionKey))
      (removeFile (metadataPath (internalPath spaceID revisionKey))
        (removeFile (internalPath spaceID revisionKey)
          (restoreMidState env st spaceID kp0 revisionKey m))))

def XSSHA1 : String := "sha1"

def XSMD5 : String := "md5"

def XSAdler32 : String := "adler32"

/-- upload.RevisionMetadata from upload/revision.go: the metadata persisted
for a revision; mtime is tracked in the revision name, not in the content. -/
structure RevisionMetadata where
  mtime : Option String
  blobID : String
  blobSize : Int
  checksumSHA1 : Val
  checksumMD5 : Val
  checksumADLER32 : Val

/-- upload.WriteRevisionMetadataToNode from upload/revision.go: write blob id,
blob size and the three checksums onto the node (no mtime attribute). -/
def WriteRevisionMetadataToNode (n : Node) (rm : RevisionMetadata) (st : Sys) : Sys :=
  setAttr (internalPath n.spaceID n.id) (ChecksumAttrStem ++ XSAdler32) rm.checksumADLER32
    (setAttr (internalPath n.spaceID n.id) (ChecksumAttrStem ++ XSMD5) rm.checksumMD5
      (setAttr (internalPath n.spaceID n.id) (ChecksumAttrStem ++ XSSHA1) rm.checksumSHA1
        (setAttr (internalPath n.spaceID n.id) BlobsizeAttr (.vi rm.blobSize)
          (setAttr (internalPath n.spaceID n.id) BlobIDAttr (.vs rm.blobID) st))))

/-- upload.SetNodeToUpload from upload/revision.go: lock the node, re-read it
under the lock, compute sizeDiff = rm.BlobSize - n.Blobsize, update the
in-memory blob pointer, default a zero mtime to now, and write the revision
metadata onto the node. -/
def SetNodeToUpload (env : Env) (st : Sys) (n : Node) (rm : RevisionMetadata) :
    Except Err Int × Sys :=
  match env.lockErr with
  | some e => (.error e, st)
  | none =>
    let n2 := readNode st n.spaceID n.id
    let sizeDiff := rm.blobSize - n2.blobsize
    let n3 := { n2 with blobID := rm.blobID, blobsize := rm.blobSize }
    let rm2 := if rm.mtime = none then { rm with mtime := some env.now } else rm
    if env.writeRevMetaFails then (.error (.wrapped "could not write metadata"), st)
    else (.ok sizeDiff, WriteRevisionMetadataToNode n3 rm2 st)

/-- The ocis Tree.Propagate loop (fs/posix file, ocis Tree): starting at the
given node, repeatedly store the fresh etag in the node's attributes and move
to the parent, stopping when the node id equals the root id; a Parent failure
ends the walk with the error flag (false).  The Nat argument is loop fuel:
`none` means the fuel ran out before the walk stopped. -/
def propGo (parent : String → Option String) (rootID etagNew : String) :
    Nat → String → (String → String) → Option ((String → String) × Bool)
  | 0, nid, etags => if nid = rootID then some (etags, true) else none
  | fuel + 1, nid, etags =>
    if nid = rootID then some (etags, true)
    else
      match parent nid with
      | some p => propGo parent rootID etagNew fuel p (updF etags nid etagNew)
      | none => some (updF etags nid etagNew, false)

/-- The parent chain from `nid` reaches the root in exactly `d` steps, never
meeting the root earlier. -/
inductive ReachesRoot (parent : String → Option String) (rootID : String) :
    String → Nat → Prop where
  | root : ReachesRoot parent rootID rootID 0
  | step {nid p : String} {d : Nat} : nid ≠ rootID → parent nid = some p →
      ReachesRoot parent rootID p d → ReachesRoot parent rootID nid (d + 1)

/-- `x` lies on the parent chain starting at `nid`, strictly before the root. -/
inductive OnPath (parent : String → Option String) (rootID : String) :
    String → String → Prop where
  | here {nid : String} : nid ≠ rootID → OnPath parent rootID nid nid
  | there {nid p x : String} : nid ≠ rootID → parent nid = some p →
      OnPath parent rootID p x → OnPath parent rootID nid x

/-- All permissions denied: the existence-leak witness permission set. -/
def envNoPerm : Env :=
  { envBase with perms :=
    { stat := false, listFileVersions := false,
      initiateFileDownload := false, restoreFileVersion := false } }

/-- Environment in which only the final tree propagation fails. -/
def envPropFail : Env := { envBase with propagateErr := some (.fault "prop") }

/-- Environment in which the first metadata copy fails. -/
def envCopy1Fail : Env := { envBase with copy1Fails := true }

/-- A three-node parent chain a -> b -> r used as the propagation witness. -/
def parW : String → Option String :=
  fun x => if x = "a" then some "b" else if x = "b" then some "r" else none

/-- True exactly when a result is a NotFound error, used to state that an
outcome is not NotFound for any message. -/
def isNotFoundRes : Except Err Unit → Bool
  | .error (.notFound _) => true
  | _ => false

theorem splitOnFirstL_pos (sep s : List Char) (h : sep.isPrefixOf s = true) :
    splitOnFirstL sep s = some ([], s.drop sep.length) := by
  cases s with
  | nil =>
    cases sep with
    | nil => simp [splitOnFirstL]
    | cons c cs => simp [List.isPrefixOf] at h
  | cons c cs => simp [splitOnFirstL, h]

theorem splitOnFirstL_neg (sep : List Char) (c : Char) (cs : List Char)
    (h : sep.isPrefixOf (c :: cs) = false) :
    splitOnFirstL sep (c :: cs) =
      match splitOnFirstL sep cs with
      | some (a, b) => some (c :: a, b)
      | none => none := by
  simp [splitOnFirstL, h]

/-- If no nonempty suffix of `id` begins an occurrence of `sep` that crosses
into the appended `sep ++ ts`, then the first occurrence of `sep` in
`id ++ sep ++ ts` is exactly at the junction. -/
theorem splitOnFirstL_append (sep id ts : List Char)
    (h : ∀ s : List Char, s ≠ [] → s <:+ id →
      ¬ sep.isPrefixOf (s ++ sep ++ ts) = true) :
    splitOnFirstL sep (id ++ sep ++ ts) = some (id, ts) := by
  induction id with
  | nil =>
    have hp : sep.isPrefixOf (sep ++ ts) = true := by
      simp [ List.isPrefixOf_iff_prefix]
    simp only [List.nil_append]
    rw [splitOnFirstL_pos sep (sep ++ ts) hp, List.drop_left]
  | cons c cs ih =>
    have hne : ¬ sep.isPrefixOf ((c :: cs) ++ sep ++ ts) = true :=
      h (c :: cs) (by simp) List.suffix_rfl
    have hne' : sep.isPrefixOf (c :: (cs ++ sep ++ ts)) = false := by
      simp only [List.cons_append] at hne
      exact Bool.eq_false_iff.mpr hne
    have hrec : splitOnFirstL sep (cs ++ sep ++ ts) = some (cs, ts) := by
      apply ih
      intro s hs hsuf
      exact h s hs (hsuf.trans (List.suffix_cons c cs))
    simp only [List.cons_append]
    rw [splitOnFirstL_neg sep c (cs ++ sep ++ ts) hne', hrec]

/-- splitOnFirstL finds a split exactly when the separator occurs as an infix
(for a nonempty separator), mirroring Go strings.Contains. -/
theorem splitOnFirstL_isSome_iff (sep s : List Char) (hsep : sep ≠ []) :
    (splitOnFirstL sep s).isSome = true ↔ sep <:+: s := by
  induction s with
  | nil =>
    cases sep with
    | nil => exact absurd rfl hsep
    | cons c cs => simp [splitOnFirstL, List.isPrefixOf, List.infix_nil]
  | cons c cs ih =>
    by_cases hp : sep.isPrefixOf (c :: cs) = true
    · rw [splitOnFirstL_pos sep (c :: cs) hp]
      simp only [Option.isSome_some, true_iff]
      exact ( List.isPrefixOf_iff_prefix.mp hp).isInfix
    · have hp' : sep.isPrefixOf (c :: cs) = false := Bool.eq_false_iff.mpr hp
      rw [splitOnFirstL_neg sep c cs hp']
      rw [List.infix_cons_iff]
      have hps : (match splitOnFirstL sep cs with
          | some (a, b) => some (c :: a, b)
          | none => (none : Option (List Char × List Char))).isSome
          = (splitOnFirstL sep cs).isSome := by
        rcases splitOnFirstL sep cs with _ | ⟨a, b⟩ <;> simp
      rw [hps, ih]
      constructor
      · exact Or.inr
      · rintro (hpre2 | hinf2)
        · exact absurd ( List.isPrefixOf_iff_prefix.mpr hpre2) hp
        · exact hinf2

/-- For an id that neither contains the delimiter nor ends in ".REV", no
occurrence of the delimiter in `id ++ ".REV." ++ ts` can start inside `id`. -/
theorem no_early_occurrence (id ts : List Char)
    (h1 : ¬ RevisionIDDelimiter.data <:+: id)
    (h2 : ¬ (".REV" : String).data <:+ id) :
    ∀ s : List Char, s ≠ [] → s <:+ id →
      ¬ RevisionIDDelimiter.data.isPrefixOf (s ++ RevisionIDDelimiter.data ++ ts) = true := by
  intro s hne hsuf hpre
  rw [ List.isPrefixOf_iff_prefix] at hpre
  rw [List.append_assoc] at hpre
  by_cases hlen : RevisionIDDelimiter.data.length ≤ s.length
  · have hps : RevisionIDDelimiter.data <+: s :=
      List.prefix_of_prefix_length_le hpre (List.prefix_append s _) hlen
    exact h1 (List.infix_iff_prefix_suffix.mpr ⟨s, hps, hsuf⟩)
  · push_neg at hlen
    have hsp : s <+: RevisionIDDelimiter.data :=
      List.prefix_of_prefix_length_le (List.prefix_append s _) hpre (Nat.le_of_lt hlen)
    have hstake : s = List.take s.length RevisionIDDelimiter.data :=
      List.prefix_iff_eq_take.mp hsp
    have hpos : 0 < s.length := List.length_pos.mpr hne
    have hlen5 : s.length < 5 := by
      have : RevisionIDDelimiter.data.length = 5 := by decide
      omega
    have hd : RevisionIDDelimiter.data = ['.', 'R', 'E', 'V', '.'] := by decide
    rw [hd] at hstake hpre
    set k := s.length with hk
    interval_cases k
    · rw [show List.take 1 ['.', 'R', 'E', 'V', '.'] = ['.'] from by decide] at hstake
      rw [hstake] at hpre
      simp only [List.cons_append, List.nil_append, List.cons_prefix_cons] at hpre
      exact absurd hpre.2.1 (by decide)
    · rw [show List.take 2 ['.', 'R', 'E', 'V', '.'] = ['.', 'R'] from by decide] at hstake
      rw [hstake] at hpre
      simp only [List.cons_append, List.nil_append, List.cons_prefix_cons] at hpre
      exact absurd hpre.2.2.1 (by decide)
    · rw [show List.take 3 ['.', 'R', 'E', 'V', '.'] = ['.', 'R', 'E'] from by decide] at hstake
      rw [hstake] at hpre
      simp only [List.cons_append, List.nil_append, List.cons_prefix_cons] at hpre
      exact absurd hpre.2.2.2.1 (by decide)
    · rw [show List.take 4 ['.', 'R', 'E', 'V', '.'] = ('.' :: 'R' :: 'E' :: 'V' :: []) from by decide] at hstake
      rw [hstake] at hsuf
      exact h2 (by exact hsuf)

/-- Claim C3 counterexample: the node id "x.REV" does not contain the
delimiter ".REV.", yet splitting the joined key "x.REV" + ".REV." + "t" cuts
at the earlier overlapping occurrence, returning ("x", "REV.t") instead of
("x.REV", "t"). -/
theorem splitJoin_counterexample :
    ¬ RevisionIDDelimiter.data <:+: ("x.REV" : String).data ∧
    SplitRevisionKey (JoinRevisionKey "x.REV" "t") ≠ ("x.REV", "t") := by
  constructor
  · decide
  · decide

/-- Claim C3 (amended): the split/join round trip holds for every id that
neither contains the delimiter ".REV." nor ends with ".REV" (an id ending in
".REV" makes an earlier overlapping occurrence of the delimiter appear in the
joined key); the join always produces id + ".REV." + ts; and a key not
containing the delimiter splits to (key, ""). -/
theorem splitJoin_roundtrip_amended :
    (∀ id ts : String, ¬ RevisionIDDelimiter.data <:+: id.data →
        ¬ (".REV" : String).data <:+ id.data →
        SplitRevisionKey (JoinRevisionKey id ts) = (id, ts) ∧
        JoinRevisionKey id ts = id ++ ".REV." ++ ts) ∧
    (∀ k : String, ¬ RevisionIDDelimiter.data <:+: k.data →
        SplitRevisionKey k = (k, "")) := by
  constructor
  · intro id ts h1 h2
    constructor
    · have hdata : (JoinRevisionKey id ts).data =
          id.data ++ RevisionIDDelimiter.data ++ ts.data := by
        simp [JoinRevisionKey]
      have hsplit : splitOnFirstL RevisionIDDelimiter.data
          (id.data ++ RevisionIDDelimiter.data ++ ts.data) = some (id.data, ts.data) :=
        splitOnFirstL_append _ _ _ (no_early_occurrence id.data ts.data h1 h2)
      simp only [SplitRevisionKey, hdata, hsplit]
    · rfl
  · intro k hk
    have hnone : splitOnFirstL RevisionIDDelimiter.data k.data = none := by
      rcases hx : splitOnFirstL RevisionIDDelimiter.data k.data with _ | ab
      · rfl
      · exfalso
        apply hk
        rw [← splitOnFirstL_isSome_iff RevisionIDDelimiter.data k.data (by decide)]
        rw [hx]; simp
    simp [SplitRevisionKey, hnone]

/-- Witness for the amended C3 round-trip at concrete inputs. -/
theorem splitJoin_roundtrip_amended_witness :
    SplitRevisionKey (JoinRevisionKey "abc" "2024") = ("abc", "2024") ∧
    SplitRevisionKey "nodelim" = ("nodelim", "") :=
  ⟨(splitJoin_roundtrip_amended.1 "abc" "2024" (by decide) (by decide)).1,
   splitJoin_roundtrip_amended.2 "nodelim" (by decide)⟩

/-- Claim C4: for an existing node with the ListFileVersions permission,
ListRevisions never errors: it returns exactly the glob matches surviving the
skip rules, an empty glob yields the empty list, metadata-backend artifacts
are skipped, and entries whose revision metadata, mtime, or etag cannot be
read are skipped rather than failing the whole listing. -/
theorem listRevisions_spec (env : Env) (st : Sys) (n : Node)
    (hex : n.nExists = true) (hpe : env.permErr = none)
    (hp : env.perms.listFileVersions = true) :
    listRevisions env st (.ok n) =
      .ok ((globRev st (internalPath n.spaceID n.id)).filterMap (listEntry env st n)) ∧
    (globRev st (internalPath n.spaceID n.id) = [] →
      listRevisions env st (.ok n) = .ok []) ∧
    (∀ item, env.isMetaFile item = true → listEntry env st n item = none) ∧
    (∀ item a rts e, env.isMetaFile item = false →
      splitOnFirstL RevisionIDDelimiter.data item.data = some (a, rts) →
      readRevision st n ⟨rts⟩ = .error e → listEntry env st n item = none) ∧
    (∀ item a rts rn, env.isMetaFile item = false →
      splitOnFirstL RevisionIDDelimiter.data item.data = some (a, rts) →
      readRevision st n ⟨rts⟩ = .ok rn → rn.nExists = true →
      (∀ e, getMTime st (internalPath rn.spaceID rn.id) = .error e →
        listEntry env st n item = none) ∧
      (∀ rmtime, getMTime st (internalPath rn.spaceID rn.id) = .ok rmtime →
        env.calcEtag rn.id rmtime = none → listEntry env st n item = none)) := by
  refine ⟨?_, ?_, ?_, ?_, ?_⟩
  · simp [listRevisions, hex, hpe, hp]
  · intro hg
    simp [listRevisions, hex, hpe, hp, hg]
  · intro item hmeta
    simp [listEntry, hmeta]
  · intro item a rts e hmeta hsplit hread
    simp [listEntry, hmeta, hsplit, hread]
  · intro item a rts rn hmeta hsplit hread hex2
    constructor
    · intro e hmt
      simp [listEntry, hmeta, hsplit, hread, hex2, hmt]
    · intro rmtime hmt hetag
      simp [listEntry, hmeta, hsplit, hread, hex2, hmt, hetag]

/-- Witness for C4 at a concrete node with no revisions. -/
theorem listRevisions_spec_witness :
    listRevisions envBase stEmpty (.ok nW) = .ok [] :=
  (listRevisions_spec envBase stEmpty nW rfl rfl rfl).2.1 rfl

/-- Claim C10: when the metadata backend reports not-exist for a revision,
ReadRevision returns an Exists=false handle with a nil error, and
DownloadRevision with a well-formed key for that nonexistent revision does
not return NotFound: it hands the nonexistent revision handle to the
blobstore. -/
theorem downloadRevision_nonexistent_spec (env : Env) (st : Sys)
    (spaceID revisionKey kp0 kp1 : String)
    (hsplit : splitRevKey? revisionKey = some (kp0, kp1))
    (hex : (readNode st spaceID kp0).nExists = true)
    (hpe : env.permErr = none)
    (hlv : env.perms.listFileVersions = true)
    (hdl : env.perms.initiateFileDownload = true)
    (hne : st.attrs (internalPath spaceID (JoinRevisionKey kp0 kp1)) = []) :
    readRevision st (readNode st spaceID kp0) kp1 =
      .ok (revisionNode (readNode st spaceID kp0) kp1) ∧
    (revisionNode (readNode st spaceID kp0) kp1).nExists = false ∧
    (downloadRevision env st spaceID revisionKey).downloaded =
      some (revisionNode (readNode st spaceID kp0) kp1) ∧
    (∀ m, (downloadRevision env st spaceID revisionKey).res ≠ .error (.notFound m)) := by
  have hrr : readRevision st (readNode st spaceID kp0) kp1 =
      .ok (revisionNode (readNode st spaceID kp0) kp1) := by
    simp [readRevision, revisionNode, readNode, hne]
  refine ⟨hrr, rfl, ?_, ?_⟩
  · rcases hd2 : env.download (revisionNode (readNode st spaceID kp0) kp1) with m2 | u <;>
      simp [downloadRevision, hsplit, hex, hpe, hlv, hdl, hrr, hd2]
  · intro m
    rcases hd2 : env.download (revisionNode (readNode st spaceID kp0) kp1) with m2 | u <;>
      simp [downloadRevision, hsplit, hex, hpe, hlv, hdl, hrr, hd2]

/-- Witness for C10 at a concrete nonexistent revision. -/
theorem downloadRevision_nonexistent_witness :
    (downloadRevision envBase stC10 "s" "n1.REV.t9").downloaded =
      some (revisionNode (readNode stC10 "s" "n1") "t9") :=
  (downloadRevision_nonexistent_spec envBase stC10 "s" "n1.REV.t9" "n1" "t9"
    (by decide) (by decide) rfl rfl rfl (by decide)).2.2.1

/-- Claim C7: evaluating DeleteRevision at the failing input.  The revision
"n1.REV.t1" of node "n1" carries blob "b-rev" while the current node carries
blob "b-current"; DeleteRevision removes the revision's path but then passes
the current node handle (id "n1", blob "b-current") to blobstore.Delete, so
the blob deleted is the current content's, not the revision's. -/
theorem deleteRevision_deletes_current_blob :
    (deleteRevision envBase stDel "s" "n1.REV.t1").res = .ok () ∧
    ¬ internalPath "s" "n1.REV.t1" ∈ (deleteRevision envBase stDel "s" "n1.REV.t1").st.files ∧
    (deleteRevision envBase stDel "s" "n1.REV.t1").blobDeleted =
      some (readNode stDel "s" "n1") ∧
    (readNode stDel "s" "n1").blobID = "b-current" ∧
    (readNode stDel "s" "n1").id = "n1" ∧
    getStrD (stDel.attrs (internalPath "s" "n1.REV.t1")) BlobIDAttr "" = "b-rev" := by
  refine ⟨rfl, by decide, rfl, rfl, rfl, rfl⟩

theorem updF_self {β : Type} (f : String → β) (x : String) (v : β) : updF f x v x = v := by
  simp [updF]

theorem updF_other {β : Type} (f : String → β) (x y : String) (v : β) (h : y ≠ x) :
    updF f x v y = f y := by
  simp [updF, h]

theorem getA_setA_self (l : List (String × Val)) (k : String) (v : Val) :
    getA (setA l k v) k = some v := by
  induction l with
  | nil => simp [setA, getA]
  | cons kv rest ih =>
    obtain ⟨k2, w⟩ := kv
    by_cases h : k2 = k
    · simp [setA, h, getA]
    · simp [setA, h, getA, ih]

theorem getA_setA_other (l : List (String × Val)) (kset klook : String) (v : Val)
    (h : klook ≠ kset) : getA (setA l kset v) klook = getA l klook := by
  have h2 : ¬ (kset = klook) := fun e => h e.symm
  induction l with
  | nil => simp [setA, getA, h2]
  | cons kv rest ih =>
    obtain ⟨k2, w⟩ := kv
    by_cases hk : k2 = kset
    · subst hk
      simp [setA, getA, h2]
    · simp [setA, hk, getA, ih]

theorem copyAttrsList_files (L : List (String × Val)) (tgt : String)
    (f : String → Val → Val × Bool) (st : Sys) :
    (copyAttrsList L tgt f st).files = st.files := by
  induction L generalizing st with
  | nil => rfl
  | cons kv rest ih =>
    obtain ⟨k, v⟩ := kv
    simp only [copyAttrsList]
    rw [ih]
    by_cases h : (f k v).2 = true <;> simp [h, setAttr]

theorem copyAttrsList_fmtimes (L : List (String × Val)) (tgt : String)
    (f : String → Val → Val × Bool) (st : Sys) :
    (copyAttrsList L tgt f st).fmtimes = st.fmtimes := by
  induction L generalizing st with
  | nil => rfl
  | cons kv rest ih =>
    obtain ⟨k, v⟩ := kv
    simp only [copyAttrsList]
    rw [ih]
    by_cases h : (f k v).2 = true <;> simp [h, setAttr]

theorem copyAttrsList_attrs_other (L : List (String × Val)) (tgt : String)
    (f : String → Val → Val × Bool) (st : Sys) (q : String) (h : q ≠ tgt) :
    (copyAttrsList L tgt f st).attrs q = st.attrs q := by
  induction L generalizing st with
  | nil => rfl
  | cons kv rest ih =>
    obtain ⟨k, v⟩ := kv
    simp only [copyAttrsList]
    rw [ih]
    by_cases hf : (f k v).2 = true <;> simp [hf, setAttr, updF_other _ _ _ _ h]

theorem copyAttrsList_getA_preserve (L : List (String × Val)) (tgt : String)
    (f : String → Val → Val × Bool) (st : Sys) (k : String)
    (h : ¬ k ∈ L.map Prod.fst) :
    getA ((copyAttrsList L tgt f st).attrs tgt) k = getA (st.attrs tgt) k := by
  induction L generalizing st with
  | nil => rfl
  | cons kv rest ih =>
    obtain ⟨k2, v⟩ := kv
    simp only [List.map_cons, List.mem_cons] at h
    push_neg at h
    simp only [copyAttrsList]
    rw [ih _ h.2]
    by_cases hf : (f k2 v).2 = true
    · simp only [hf, if_true]
      simp [setAttr, updF_self, getA_setA_other _ _ _ _ h.1]
    · simp [hf]

theorem copyAttrsList_getA_found (L : List (String × Val)) (tgt : String)
    (f : String → Val → Val × Bool) (st : Sys) (k : String) (v : Val)
    (hnd : (L.map Prod.fst).Nodup)
    (hget : getA L k = some v) (hpass : (f k v).2 = true) :
    getA ((copyAttrsList L tgt f st).attrs tgt) k = some (f k v).1 := by
  induction L generalizing st with
  | nil => simp [getA] at hget
  | cons kv rest ih =>
    obtain ⟨k2, w⟩ := kv
    by_cases hk : k2 = k
    · subst hk
      have hw : w = v := by simpa [getA] using hget
      subst hw
      have hnotin : ¬ k2 ∈ rest.map Prod.fst := by
        simp only [List.map_cons, List.nodup_cons] at hnd
        exact hnd.1
      simp only [copyAttrsList, hpass, if_true]
      rw [copyAttrsList_getA_preserve rest tgt f _ k2 hnotin]
      simp [setAttr, updF_self, getA_setA_self]
    · have hget2 : getA rest k = some v := by simpa [getA, hk] using hget
      have hnd2 : (rest.map Prod.fst).Nodup := by
        simp only [List.map_cons, List.nodup_cons] at hnd
        exact hnd.2
      simp only [copyAttrsList]
      by_cases hf : (f k2 w).2 = true
      · rw [if_pos hf]
        exact ih _ hnd2 hget2
      · rw [if_neg hf]
        exact ih _ hnd2 hget2

theorem setAttr_attrs_self (p k : String) (v : Val) (st : Sys) :
    (setAttr p k v st).attrs p = setA (st.attrs p) k v := by
  simp [setAttr, updF_self]

theorem setAttr_attrs_other (p k : String) (v : Val) (st : Sys) (q : String) (h : q ≠ p) :
    (setAttr p k v st).attrs q = st.attrs q := by
  simp [setAttr, updF_other _ _ _ _ h]

theorem purgePath_attrs_self (p : String) (st : Sys) : (purgePath p st).attrs p = [] := by
  simp [purgePath, updF_self]

theorem purgePath_attrs_other (p : String) (st : Sys) (q : String) (h : q ≠ p) :
    (purgePath p st).attrs q = st.attrs q := by
  simp [purgePath, updF_other _ _ _ _ h]

theorem removeFile_mem (p : String) (st : Sys) (q : String) :
    q ∈ (removeFile p st).files ↔ q ∈ st.files ∧ q ≠ p := by
  simp [removeFile, List.mem_filter]

theorem rollbackRev_files_not_mem (p : String) (st : Sys) :
    ¬ p ∈ (rollbackRev p st).files := by
  simp [rollbackRev, purgePath, removeFile, List.mem_filter]

theorem rollbackRev_attrs_self (p : String) (st : Sys) :
    (rollbackRev p st).attrs p = [] := by
  simp [rollbackRev, purgePath, updF_self]

theorem getMTime_addFile (p : String) (st : Sys) (q : String) :
    getMTime (addFile p st) q = getMTime st q := rfl

theorem string_data_ext (a b : String) (h : a.data = b.data) : a = b := by
  cases a
  cases b
  simp_all

theorem string_append_cancel (p a b : String) (h : p ++ a = p ++ b) : a = b := by
  apply string_data_ext
  have hd := congrArg String.data h
  simp only [String.data_append] at hd
  exact List.append_cancel_left hd

theorem string_ne_of_length (a b : String) (h : a.data.length ≠ b.data.length) : a ≠ b :=
  fun e => h (by rw [e])

theorem internalPath_inj (s a b : String) (h : internalPath s a = internalPath s b) :
    a = b :=
  string_append_cancel (s ++ "/") a b h

theorem splitOnFirstL_eq_append (sep s a b : List Char)
    (h : splitOnFirstL sep s = some (a, b)) : s = a ++ sep ++ b := by
  induction s generalizing a b with
  | nil =>
    cases sep with
    | nil =>
      simp [splitOnFirstL, List.isPrefixOf] at h
      simp [h.1, h.2]
    | cons c cs => simp [splitOnFirstL, List.isPrefixOf] at h
  | cons c cs ih =>
    by_cases hp : sep.isPrefixOf (c :: cs) = true
    · rw [splitOnFirstL_pos _ _ hp] at h
      have ha : a = [] := by
        have := congrArg (fun x => (Option.map Prod.fst x)) h
        simpa using this.symm
      have hb : b = (c :: cs).drop sep.length := by
        have := congrArg (fun x => (Option.map Prod.snd x)) h
        simpa using this.symm
      subst ha
      subst hb
      have := List.prefix_iff_eq_append.mp ( List.isPrefixOf_iff_prefix.mp hp)
      simpa using this.symm
    · have hp' : sep.isPrefixOf (c :: cs) = false := Bool.eq_false_iff.mpr hp
      rw [splitOnFirstL_neg _ _ _ hp'] at h
      rcases hx : splitOnFirstL sep cs with _ | ⟨a2, b2⟩
      · rw [hx] at h; simp at h
      · rw [hx] at h
        simp only [Option.some.injEq, Prod.mk.injEq] at h
        have hcs := ih a2 b2 hx
        rw [← h.1, ← h.2]
        simp [hcs]

theorem splitRevKey?_eq_join (revisionKey kp0 kp1 : String)
    (h : splitRevKey? revisionKey = some (kp0, kp1)) :
    revisionKey = kp0 ++ RevisionIDDelimiter ++ kp1 := by
  simp only [splitRevKey?] at h
  rcases hx : splitOnFirstL RevisionIDDelimiter.data revisionKey.data with _ | ⟨a, b⟩
  · rw [hx] at h; simp at h
  · rw [hx] at h
    simp only [Option.some.injEq, Prod.mk.injEq] at h
    have hd := splitOnFirstL_eq_append _ _ _ _ hx
    apply string_data_ext
    simp only [String.data_append]
    rw [← h.1, ← h.2]
    exact hd

theorem setFMtime_attrs (p m : String) (st : Sys) : (setFMtime p m st).attrs = st.attrs := rfl

theorem addFile_attrs (p : String) (st : Sys) : (addFile p st).attrs = st.attrs := rfl

theorem removeFile_attrs (p : String) (st : Sys) : (removeFile p st).attrs = st.attrs := rfl

theorem purgePath_files (p : String) (st : Sys) : (purgePath p st).files = st.files := rfl

theorem setAttr_files (p k : String) (v : Val) (st : Sys) : (setAttr p k v st).files = st.files := rfl

theorem setFMtime_files (p m : String) (st : Sys) : (setFMtime p m st).files = st.files := rfl

theorem addFile_files (p : String) (st : Sys) : (addFile p st).files = p :: st.files := rfl

theorem path_len_ne (s x y : String) (h : x.data.length ≠ y.data.length) :
    internalPath s x ≠ internalPath s y :=
  fun e => h (by rw [internalPath_inj s x y e])

theorem join_data_length (a b : String) :
    (a ++ RevisionIDDelimiter ++ b).data.length = a.data.length + 5 + b.data.length := by
  have h5 : RevisionIDDelimiter.data.length = 5 := by decide
  simp only [String.data_append, List.length_append, h5]

theorem nodePath_ne_joinPath (s a b : String) :
    internalPath s a ≠ internalPath s (a ++ RevisionIDDelimiter ++ b) := by
  apply path_len_ne
  rw [join_data_length]
  omega

theorem internalPath_data_length (s x : String) :
    (internalPath s x).data.length = s.data.length + 1 + x.data.length := by
  have h1 : ("/" : String).data.length = 1 := by decide
  simp only [internalPath, String.data_append, List.length_append, h1]

theorem metadataPath_data_length (p : String) :
    (metadataPath p).data.length = p.data.length + 4 := by
  have h1 : (".mpk" : String).data.length = 4 := by decide
  simp only [metadataPath, String.data_append, List.length_append, h1]

theorem lockfilePath_data_length (p : String) :
    (lockfilePath p).data.length = p.data.length + 6 := by
  have h1 : (".mlock" : String).data.length = 6 := by decide
  simp only [lockfilePath, String.data_append, List.length_append, h1]

theorem restoreMid_attrs_untouched (env : Env) (st : Sys)
    (spaceID kp0 revisionKey m q : String)
    (hq1 : q ≠ internalPath spaceID kp0)
    (hq2 : q ≠ internalPath spaceID (kp0 ++ RevisionIDDelimiter ++ m)) :
    (restoreMidState env st spaceID kp0 revisionKey m).attrs q = st.attrs q := by
  simp only [restoreMidState, copyMetadata]
  rw [copyAttrsList_attrs_other _ _ _ _ _ hq1]
  rw [setAttr_attrs_other _ _ _ _ _ hq1]
  rw [setFMtime_attrs]
  rw [copyAttrsList_attrs_other _ _ _ _ _ hq2]
  rw [addFile_attrs, addFile_attrs]

theorem restoreMid_newRev_attr (env : Env) (st : Sys)
    (spaceID kp0 revisionKey m k : String) (v : Val)
    (hnn : internalPath spaceID (kp0 ++ RevisionIDDelimiter ++ m) ≠ internalPath spaceID kp0)
    (hnd : ((st.attrs (internalPath spaceID kp0)).map Prod.fst).Nodup)
    (hget : getA (st.attrs (internalPath spaceID kp0)) k = some v)
    (hpass : (revCopyFilter k v).2 = true) :
    getA ((restoreMidState env st spaceID kp0 revisionKey m).attrs
      (internalPath spaceID (kp0 ++ RevisionIDDelimiter ++ m))) k = some v := by
  simp only [restoreMidState, copyMetadata]
  rw [copyAttrsList_attrs_other _ _ _ _ _ hnn]
  rw [setAttr_attrs_other _ _ _ _ _ hnn]
  rw [setFMtime_attrs]
  rw [addFile_attrs, addFile_attrs]
  exact copyAttrsList_getA_found _ _ revCopyFilter _ k v hnd hget hpass

theorem restoreMid_node_attr (env : Env) (st : Sys)
    (spaceID kp0 revisionKey m k : String) (v : Val)
    (hrn : internalPath spaceID revisionKey ≠ internalPath spaceID kp0)
    (hrnew : internalPath spaceID revisionKey ≠
      internalPath spaceID (kp0 ++ RevisionIDDelimiter ++ m))
    (hnd : ((st.attrs (internalPath spaceID revisionKey)).map Prod.fst).Nodup)
    (hget : getA (st.attrs (internalPath spaceID revisionKey)) k = some v)
    (hpass : (promoteFilter env.now k v).2 = true) :
    getA ((restoreMidState env st spaceID kp0 revisionKey m).attrs
      (internalPath spaceID kp0)) k = some (promoteFilter env.now k v).1 := by
  simp only [restoreMidState, copyMetadata]
  rw [setAttr_attrs_other _ _ _ _ _ hrn]
  rw [setFMtime_attrs]
  rw [copyAttrsList_attrs_other _ _ _ _ _ hrnew]
  rw [addFile_attrs, addFile_attrs]
  exact copyAttrsList_getA_found _ _ (promoteFilter env.now) _ k v hnd hget hpass

theorem restoreEnd_attrs_other (env : Env) (st : Sys)
    (spaceID kp0 revisionKey m q : String)
    (hq : q ≠ internalPath spaceID revisionKey) :
    (restoreEndState env st spaceID kp0 revisionKey m).attrs q =
      (restoreMidState env st spaceID kp0 revisionKey m).attrs q := by
  simp only [restoreEndState]
  rw [purgePath_attrs_other _ _ _ hq, removeFile_attrs, removeFile_attrs, removeFile_attrs]

theorem restoreEnd_files_mem (env : Env) (st : Sys)
    (spaceID kp0 revisionKey m q : String) :
    q ∈ (restoreEndState env st spaceID kp0 revisionKey m).files ↔
      (q = internalPath spaceID (kp0 ++ RevisionIDDelimiter ++ m) ∨
        q = lockfilePath (internalPath spaceID kp0) ∨ q ∈ st.files) ∧
      q ≠ internalPath spaceID revisionKey ∧
      q ≠ metadataPath (internalPath spaceID revisionKey) ∧
      q ≠ lockfilePath (internalPath spaceID revisionKey) := by
  simp only [restoreEndState, purgePath_files, removeFile_mem]
  simp only [restoreMidState, copyMetadata, copyAttrsList_files, setAttr_files,
    setFMtime_files, addFile_files, List.mem_cons]
  tauto

theorem restoreRevision_run (env : Env) (st : Sys)
    (spaceID revisionKey kp0 kp1 m : String) (i : Int)
    (hsplit : splitRevKey? revisionKey = some (kp0, kp1))
    (hex : (readNode st spaceID kp0).nExists = true)
    (hpe : env.permErr = none)
    (hrp : env.perms.restoreFileVersion = true)
    (hcl : env.checkLockErr = none)
    (hlo : env.lockErr = none)
    (hmt : getMTime st (internalPath spaceID kp0) = .ok m)
    (hcf : env.createFails = false)
    (h1f : env.copy1Fails = false)
    (h2f : env.chtimesFails = false)
    (h3f : env.setCurFails = false)
    (h4f : env.copy2Fails = false)
    (hm1 : m ≠ kp1)
    (hi : getA (st.attrs (internalPath spaceID revisionKey)) BlobsizeAttr = some (.vi i)) :
    restoreRevision env st spaceID revisionKey =
      match env.propagateErr with
      | some e =>
        ⟨.error e,
          rollbackRev (internalPath spaceID (kp0 ++ RevisionIDDelimiter ++ m))
            (restoreEndState env st spaceID kp0 revisionKey m),
          some (i - (readNode st spaceID kp0).blobsize)⟩
      | none =>
        ⟨.ok (), restoreEndState env st spaceID kp0 revisionKey m,
          some (i - (readNode st spaceID kp0).blobsize)⟩ := by
  have hkey := splitRevKey?_eq_join _ _ _ hsplit
  have hrn : internalPath spaceID revisionKey ≠ internalPath spaceID kp0 := by
    rw [hkey]
    exact (nodePath_ne_joinPath spaceID kp0 kp1).symm
  have hrnew : internalPath spaceID revisionKey ≠
      internalPath spaceID (kp0 ++ RevisionIDDelimiter ++ m) := by
    rw [hkey]
    intro e
    exact hm1 (string_append_cancel (kp0 ++ RevisionIDDelimiter) _ _
      (internalPath_inj _ _ _ e)).symm
  have hg5 : getA ((restoreMidState env st spaceID kp0 revisionKey m).attrs
      (internalPath spaceID revisionKey)) BlobsizeAttr = some (.vi i) := by
    rw [restoreMid_attrs_untouched env st spaceID kp0 revisionKey m _ hrn hrnew]
    exact hi
  simp only [restoreMidState] at hg5
  simp only [restoreRevision, hsplit, hex, hpe, hrp, hcl, hlo, getMTime_addFile, hmt,
    hcf, h1f, h2f, h3f, h4f, Bool.true_eq_false, Bool.false_eq_true, if_false]
  rw [hg5]
  simp only [restoreEndState, restoreMidState]

theorem newRev_ne_suffixed (s kp0 kp1 m sfx : String) (hm : m ≠ kp1 ++ sfx) :
    internalPath s (kp0 ++ RevisionIDDelimiter ++ m) ≠
      internalPath s (kp0 ++ RevisionIDDelimiter ++ kp1) ++ sfx := by
  intro e
  apply hm
  have hd := congrArg String.data e
  simp only [internalPath, String.data_append, List.append_assoc] at hd
  apply string_data_ext
  simp only [String.data_append]
  have h1 := List.append_cancel_left hd
  have h2 := List.append_cancel_left h1
  have h3 := List.append_cancel_left h2
  exact List.append_cancel_left h3

/-- Claim C1 (amended): for every successful RestoreRevision on a node whose
current mtime timestamp differs from the target revision's timestamp (and
from its sidecar artifact names): a new revision entry is created at the key
built from the current node's mtime, not the target revision's timestamp; it
receives the checksum/type/blob-id/blob-size/mtime attributes present on the
current node; the target revision's checksum/type/blob-id/blob-size
attributes are promoted onto the current node whose path (identity) is
unchanged; and the node's mtime attribute is refreshed to the current time
whenever the restored revision carries an mtime attribute — when it does not
(as with upload-created revisions, whose mtime lives in the revision name),
the node's mtime attribute is left unchanged, which is the correction. -/
theorem restoreRevision_success_amended (env : Env) (st : Sys)
    (spaceID revisionKey kp0 kp1 m : String) (i : Int)
    (hsplit : splitRevKey? revisionKey = some (kp0, kp1))
    (hex : (readNode st spaceID kp0).nExists = true)
    (hpe : env.permErr = none)
    (hrp : env.perms.restoreFileVersion = true)
    (hcl : env.checkLockErr = none)
    (hlo : env.lockErr = none)
    (hmt : getMTime st (internalPath spaceID kp0) = .ok m)
    (hcf : env.createFails = false)
    (h1f : env.copy1Fails = false)
    (h2f : env.chtimesFails = false)
    (h3f : env.setCurFails = false)
    (h4f : env.copy2Fails = false)
    (hpp : env.propagateErr = none)
    (hm1 : m ≠ kp1)
    (hm2 : m ≠ kp1 ++ ".mpk")
    (hm3 : m ≠ kp1 ++ ".mlock")
    (hi : getA (st.attrs (internalPath spaceID revisionKey)) BlobsizeAttr = some (.vi i))
    (hnd1 : ((st.attrs (internalPath spaceID kp0)).map Prod.fst).Nodup)
    (hnd2 : ((st.attrs (internalPath spaceID revisionKey)).map Prod.fst).Nodup) :
    (restoreRevision env st spaceID revisionKey).res = .ok () ∧
    internalPath spaceID (JoinRevisionKey kp0 m) ∈
      (restoreRevision env st spaceID revisionKey).st.files ∧
    internalPath spaceID kp0 ∈ (restoreRevision env st spaceID revisionKey).st.files ∧
    (∀ k v, getA (st.attrs (internalPath spaceID kp0)) k = some v →
      (revCopyFilter k v).2 = true →
      getA ((restoreRevision env st spaceID revisionKey).st.attrs
        (internalPath spaceID (JoinRevisionKey kp0 m))) k = some v) ∧
    (∀ k v, getA (st.attrs (internalPath spaceID revisionKey)) k = some v →
      k ≠ MTimeAttr → (promoteFilter env.now k v).2 = true →
      getA ((restoreRevision env st spaceID revisionKey).st.attrs
        (internalPath spaceID kp0)) k = some v) ∧
    (∀ v, getA (st.attrs (internalPath spaceID revisionKey)) MTimeAttr = some v →
      getA ((restoreRevision env st spaceID revisionKey).st.attrs
        (internalPath spaceID kp0)) MTimeAttr = some (.vs env.now)) := by
  have hkey := splitRevKey?_eq_join _ _ _ hsplit
  have hrn : internalPath spaceID revisionKey ≠ internalPath spaceID kp0 := by
    rw [hkey]
    exact (nodePath_ne_joinPath spaceID kp0 kp1).symm
  have hrnew : internalPath spaceID revisionKey ≠
      internalPath spaceID (kp0 ++ RevisionIDDelimiter ++ m) := by
    rw [hkey]
    intro e
    exact hm1 (string_append_cancel (kp0 ++ RevisionIDDelimiter) _ _
      (internalPath_inj _ _ _ e)).symm
  have hrun : restoreRevision env st spaceID revisionKey =
      ⟨.ok (), restoreEndState env st spaceID kp0 revisionKey m,
        some (i - (readNode st spaceID kp0).blobsize)⟩ := by
    rw [restoreRevision_run env st spaceID revisionKey kp0 kp1 m i hsplit hex hpe hrp hcl
      hlo hmt hcf h1f h2f h3f h4f hm1 hi, hpp]
  have hnewmeta : internalPath spaceID (kp0 ++ RevisionIDDelimiter ++ m) ≠
      metadataPath (internalPath spaceID revisionKey) := by
    rw [hkey]
    exact newRev_ne_suffixed spaceID kp0 kp1 m ".mpk" hm2
  have hnewlock : internalPath spaceID (kp0 ++ RevisionIDDelimiter ++ m) ≠
      lockfilePath (internalPath spaceID revisionKey) := by
    rw [hkey]
    exact newRev_ne_suffixed spaceID kp0 kp1 m ".mlock" hm3
  have hnodemeta : internalPath spaceID kp0 ≠
      metadataPath (internalPath spaceID revisionKey) := by
    apply string_ne_of_length
    rw [internalPath_data_length, metadataPath_data_length, internalPath_data_length,
      hkey, join_data_length]
    omega
  have hnodelock : internalPath spaceID kp0 ≠
      lockfilePath (internalPath spaceID revisionKey) := by
    apply string_ne_of_length
    rw [internalPath_data_length, lockfilePath_data_length, internalPath_data_length,
      hkey, join_data_length]
    omega
  have hmem : internalPath spaceID kp0 ∈ st.files := by
    simp only [readNode] at hex
    exact List.elem_iff.mp hex
  refine ⟨by rw [hrun], ?_, ?_, ?_, ?_, ?_⟩
  · rw [hrun]
    show internalPath spaceID (kp0 ++ RevisionIDDelimiter ++ m) ∈
      (restoreEndState env st spaceID kp0 revisionKey m).files
    rw [restoreEnd_files_mem]
    exact ⟨Or.inl rfl, hrnew.symm, hnewmeta, hnewlock⟩
  · rw [hrun]
    show internalPath spaceID kp0 ∈ (restoreEndState env st spaceID kp0 revisionKey m).files
    rw [restoreEnd_files_mem]
    exact ⟨Or.inr (Or.inr hmem), hrn.symm, hnodemeta, hnodelock⟩
  · intro k v hget hpass
    rw [hrun]
    show getA ((restoreEndState env st spaceID kp0 revisionKey m).attrs
      (internalPath spaceID (kp0 ++ RevisionIDDelimiter ++ m))) k = some v
    rw [restoreEnd_attrs_other _ _ _ _ _ _ _ hrnew.symm]
    exact restoreMid_newRev_attr env st spaceID kp0 revisionKey m k v
      (nodePath_ne_joinPath spaceID kp0 m).symm hnd1 hget hpass
  · intro k v hget hkmt hpass
    rw [hrun]
    show getA ((restoreEndState env st spaceID kp0 revisionKey m).attrs
      (internalPath spaceID kp0)) k = some v
    rw [restoreEnd_attrs_other _ _ _ _ _ _ _ hrn.symm]
    have hres := restoreMid_node_attr env st spaceID kp0 revisionKey m k v hrn hrnew
      hnd2 hget hpass
    rw [hres]
    simp [promoteFilter, hkmt]
  · intro v hget
    rw [hrun]
    show getA ((restoreEndState env st spaceID kp0 revisionKey m).attrs
      (internalPath spaceID kp0)) MTimeAttr = some (.vs env.now)
    rw [restoreEnd_attrs_other _ _ _ _ _ _ _ hrn.symm]
    have hpass : (promoteFilter env.now MTimeAttr v).2 = true := by simp [promoteFilter]
    have hres := restoreMid_node_attr env st spaceID kp0 revisionKey m MTimeAttr v hrn
      hrnew hnd2 hget hpass
    rw [hres]
    simp [promoteFilter]

/-- Claim C1 counterexample: a successful restore of revision "n1.REV.t1",
whose stored metadata carries no mtime attribute (upload-created revisions
keep the mtime in the revision name), leaves the node's mtime attribute at
its old value "T0" instead of refreshing it to the current time "NOW". -/
theorem restoreRevision_mtime_counterexample :
    (restoreRevision envBase stDel "s" "n1.REV.t1").res = .ok () ∧
    getA ((restoreRevision envBase stDel "s" "n1.REV.t1").st.attrs
      (internalPath "s" "n1")) MTimeAttr = some (.vs "T0") ∧
    envBase.now = "NOW" ∧
    getA ((restoreRevision envBase stDel "s" "n1.REV.t1").st.attrs
      (internalPath "s" "n1")) MTimeAttr ≠ some (.vs envBase.now) := by
  refine ⟨rfl, rfl, rfl, by decide⟩

/-- Witness for the amended C1 at a concrete successful restore. -/
theorem restoreRevision_success_amended_witness :
    (restoreRevision envBase stDel "s" "n1.REV.t1").res = .ok () :=
  (restoreRevision_success_amended envBase stDel "s" "n1.REV.t1" "n1" "t1" "T0" 5
    (by decide) rfl rfl rfl rfl rfl rfl rfl rfl rfl rfl rfl rfl
    (by decide) (by decide) (by decide) (by decide) (by decide) (by decide)).1

/-- Once RestoreRevision has touched the new revision file, the run either
succeeds or ends in an error whose final state went through the deferred
rollback of the new revision path. -/
theorem restoreRevision_post_create_cases (env : Env) (st : Sys)
    (spaceID revisionKey kp0 kp1 m : String)
    (hsplit : splitRevKey? revisionKey = some (kp0, kp1))
    (hex : (readNode st spaceID kp0).nExists = true)
    (hpe : env.permErr = none)
    (hrp : env.perms.restoreFileVersion = true)
    (hcl : env.checkLockErr = none)
    (hlo : env.lockErr = none)
    (hmt : getMTime st (internalPath spaceID kp0) = .ok m)
    (hcf : env.createFails = false) :
    (∃ stX sd, restoreRevision env st spaceID revisionKey = ⟨.ok (), stX, sd⟩) ∨
    (∃ e stX sd, restoreRevision env st spaceID revisionKey =
      ⟨.error e, rollbackRev (internalPath spaceID (kp0 ++ RevisionIDDelimiter ++ m)) stX,
        sd⟩) := by
  simp only [restoreRevision, hsplit, hex, hpe, hrp, hcl, hlo, getMTime_addFile, hmt, hcf,
    Bool.true_eq_false, Bool.false_eq_true, if_false]
  split
  · exact Or.inr ⟨_, _, _, rfl⟩
  · split
    · exact Or.inr ⟨_, _, _, rfl⟩
    · split
      · exact Or.inr ⟨_, _, _, rfl⟩
      · split
        · exact Or.inr ⟨_, _, _, rfl⟩
        · split
          · split
            · exact Or.inr ⟨_, _, _, rfl⟩
            · exact Or.inl ⟨_, _, rfl⟩
          · exact Or.inr ⟨_, _, _, rfl⟩

/-- Claim C2: every execution of RestoreRevision that fails after the new
revision file has been created (all steps up to and including the touch
succeeded, and the run returns an error) leaves a final state in which the
new revision path does not exist and carries no metadata: the deferred
compensation removed the artifact before returning. -/
theorem restoreRevision_failure_rollback (env : Env) (st : Sys)
    (spaceID revisionKey kp0 kp1 m : String) (e : Err)
    (hsplit : splitRevKey? revisionKey = some (kp0, kp1))
    (hex : (readNode st spaceID kp0).nExists = true)
    (hpe : env.permErr = none)
    (hrp : env.perms.restoreFileVersion = true)
    (hcl : env.checkLockErr = none)
    (hlo : env.lockErr = none)
    (hmt : getMTime st (internalPath spaceID kp0) = .ok m)
    (hcf : env.createFails = false)
    (herr : (restoreRevision env st spaceID revisionKey).res = .error e) :
    ¬ internalPath spaceID (JoinRevisionKey kp0 m) ∈
      (restoreRevision env st spaceID revisionKey).st.files ∧
    (restoreRevision env st spaceID revisionKey).st.attrs
      (internalPath spaceID (JoinRevisionKey kp0 m)) = [] := by
  rcases restoreRevision_post_create_cases env st spaceID revisionKey kp0 kp1 m hsplit hex
      hpe hrp hcl hlo hmt hcf with ⟨stX, sd, heq⟩ | ⟨e2, stX, sd, heq⟩
  · rw [heq] at herr
    simp at herr
  · rw [heq]
    exact ⟨rollbackRev_files_not_mem _ _, rollbackRev_attrs_self _ _⟩

/-- Witness for C2: a concrete run in which the first metadata copy fails. -/
theorem restoreRevision_failure_rollback_witness :
    ¬ internalPath "s" (JoinRevisionKey "n1" "T0") ∈
      (restoreRevision envCopy1Fail stDel "s" "n1.REV.t1").st.files ∧
    (restoreRevision envCopy1Fail stDel "s" "n1.REV.t1").st.attrs
      (internalPath "s" (JoinRevisionKey "n1" "T0")) = [] :=
  restoreRevision_failure_rollback envCopy1Fail stDel "s" "n1.REV.t1" "n1" "t1" "T0"
    (.internal "failed to copy blob xattrs to version node")
    (by decide) rfl rfl rfl rfl rfl rfl rfl rfl

/-- Claim C6 (amended): the size delta handed to propagation is new content
size minus previous node size, provided the node's current mtime timestamp
differs from the target revision's timestamp.  Under that proviso a
successful RestoreRevision propagates the promoted revision's stored blob
size minus the node's blob size read at the start; without it (the collision
the source's FIXME flags) the new revision overwrites the target revision's
metadata before its blob size is read, and the propagated delta degenerates
to zero, which is the correction.  SetNodeToUpload unconditionally returns
the new revision metadata's blob size minus the node's blob size re-read
under the node lock while updating the node's blob id and blob size
attributes to the new content. -/
theorem sizeDiff_spec :
    (∀ (env : Env) (st : Sys) (spaceID revisionKey kp0 kp1 m : String) (i : Int),
      splitRevKey? revisionKey = some (kp0, kp1) →
      (readNode st spaceID kp0).nExists = true →
      env.permErr = none → env.perms.restoreFileVersion = true →
      env.checkLockErr = none → env.lockErr = none →
      getMTime st (internalPath spaceID kp0) = .ok m →
      env.createFails = false → env.copy1Fails = false → env.chtimesFails = false →
      env.setCurFails = false → env.copy2Fails = false → env.propagateErr = none →
      m ≠ kp1 →
      getA (st.attrs (internalPath spaceID revisionKey)) BlobsizeAttr = some (.vi i) →
      (restoreRevision env st spaceID revisionKey).propagated =
        some (i - (readNode st spaceID kp0).blobsize)) ∧
    (∀ (env : Env) (st : Sys) (n : Node) (rm : RevisionMetadata),
      env.lockErr = none → env.writeRevMetaFails = false →
      (SetNodeToUpload env st n rm).1 =
        .ok (rm.blobSize - (readNode st n.spaceID n.id).blobsize) ∧
      getA ((SetNodeToUpload env st n rm).2.attrs (internalPath n.spaceID n.id))
        BlobsizeAttr = some (.vi rm.blobSize) ∧
      getA ((SetNodeToUpload env st n rm).2.attrs (internalPath n.spaceID n.id))
        BlobIDAttr = some (.vs rm.blobID)) := by
  constructor
  · intro env st spaceID revisionKey kp0 kp1 m i hsplit hex hpe hrp hcl hlo hmt hcf h1f
      h2f h3f h4f hpp hm1 hi
    have hrun : restoreRevision env st spaceID revisionKey =
        ⟨.ok (), restoreEndState env st spaceID kp0 revisionKey m,
          some (i - (readNode st spaceID kp0).blobsize)⟩ := by
      rw [restoreRevision_run env st spaceID revisionKey kp0 kp1 m i hsplit hex hpe hrp
        hcl hlo hmt hcf h1f h2f h3f h4f hm1 hi, hpp]
    rw [hrun]
  · intro env st n rm hlo hwf
    refine ⟨?_, ?_, ?_⟩
    · simp [SetNodeToUpload, hlo, hwf]
    · simp only [SetNodeToUpload, hlo, hwf, Bool.false_eq_true, if_false,
        WriteRevisionMetadataToNode, readNode]
      rw [setAttr_attrs_self,
        getA_setA_other _ _ _ _ (by decide : BlobsizeAttr ≠ ChecksumAttrStem ++ XSAdler32),
        setAttr_attrs_self,
        getA_setA_other _ _ _ _ (by decide : BlobsizeAttr ≠ ChecksumAttrStem ++ XSMD5),
        setAttr_attrs_self,
        getA_setA_other _ _ _ _ (by decide : BlobsizeAttr ≠ ChecksumAttrStem ++ XSSHA1),
        setAttr_attrs_self, getA_setA_self]
      simp [apply_ite]
    · simp only [SetNodeToUpload, hlo, hwf, Bool.false_eq_true, if_false,
        WriteRevisionMetadataToNode, readNode]
      rw [setAttr_attrs_self,
        getA_setA_other _ _ _ _ (by decide : BlobIDAttr ≠ ChecksumAttrStem ++ XSAdler32),
        setAttr_attrs_self,
        getA_setA_other _ _ _ _ (by decide : BlobIDAttr ≠ ChecksumAttrStem ++ XSMD5),
        setAttr_attrs_self,
        getA_setA_other _ _ _ _ (by decide : BlobIDAttr ≠ ChecksumAttrStem ++ XSSHA1),
        setAttr_attrs_self,
        getA_setA_other _ _ _ _ (by decide : BlobIDAttr ≠ BlobsizeAttr),
        setAttr_attrs_self, getA_setA_self]
      simp [apply_ite]

/-- Claim C6 counterexample: restoring revision "n1.REV.t1" when the node's
current mtime is also "t1" succeeds, but the new revision path coincides
with the restored revision's path: the first metadata copy overwrites the
revision's stored blob size (5) with the node's (10) before GetInt64 reads
it, so the run propagates 0 instead of the promoted revision's blob size
minus the pre-restore node size (5 - 10 = -5). -/
theorem sizeDiff_collision_counterexample :
    getA (stCol.attrs (internalPath "s" "n1.REV.t1")) BlobsizeAttr = some (.vi 5) ∧
    (readNode stCol "s" "n1").blobsize = 10 ∧
    getMTime stCol (internalPath "s" "n1") = .ok "t1" ∧
    (restoreRevision envBase stCol "s" "n1.REV.t1").res = .ok () ∧
    (restoreRevision envBase stCol "s" "n1.REV.t1").propagated = some 0 ∧
    (restoreRevision envBase stCol "s" "n1.REV.t1").propagated ≠ some (5 - 10) := by
  refine ⟨rfl, rfl, rfl, rfl, rfl, by decide⟩

/-- Witness for the amended C6 at a concrete restore (sizes 5 and 10 give
delta -5). -/
theorem sizeDiff_spec_witness :
    (restoreRevision envBase stDel "s" "n1.REV.t1").propagated =
      some (5 - (readNode stDel "s" "n1").blobsize) :=
  sizeDiff_spec.1 envBase stDel "s" "n1.REV.t1" "n1" "t1" "T0" 5
    (by decide) rfl rfl rfl rfl rfl rfl rfl rfl rfl rfl rfl rfl (by decide) (by decide)

/-- Claim C8 (amended): a propagation failure after the completed metadata
swap is surfaced: RestoreRevision returns the Propagate error to the caller,
and its deferred compensation removes the newly created revision. -/
theorem restoreRevision_propagateError_amended (env : Env) (st : Sys)
    (spaceID revisionKey kp0 kp1 m : String) (i : Int) (e : Err)
    (hsplit : splitRevKey? revisionKey = some (kp0, kp1))
    (hex : (readNode st spaceID kp0).nExists = true)
    (hpe : env.permErr = none)
    (hrp : env.perms.restoreFileVersion = true)
    (hcl : env.checkLockErr = none)
    (hlo : env.lockErr = none)
    (hmt : getMTime st (internalPath spaceID kp0) = .ok m)
    (hcf : env.createFails = false)
    (h1f : env.copy1Fails = false)
    (h2f : env.chtimesFails = false)
    (h3f : env.setCurFails = false)
    (h4f : env.copy2Fails = false)
    (hppE : env.propagateErr = some e)
    (hm1 : m ≠ kp1)
    (hi : getA (st.attrs (internalPath spaceID revisionKey)) BlobsizeAttr = some (.vi i)) :
    (restoreRevision env st spaceID revisionKey).res = .error e ∧
    ¬ internalPath spaceID (JoinRevisionKey kp0 m) ∈
      (restoreRevision env st spaceID revisionKey).st.files := by
  have hrr : restoreRevision env st spaceID revisionKey =
      ⟨.error e,
        rollbackRev (internalPath spaceID (kp0 ++ RevisionIDDelimiter ++ m))
          (restoreEndState env st spaceID kp0 revisionKey m),
        some (i - (readNode st spaceID kp0).blobsize)⟩ := by
    rw [restoreRevision_run env st spaceID revisionKey kp0 kp1 m i hsplit hex hpe hrp hcl
      hlo hmt hcf h1f h2f h3f h4f hm1 hi, hppE]
  rw [hrr]
  exact ⟨rfl, rollbackRev_files_not_mem _ _⟩

/-- Claim C8 counterexample: a restore in which everything succeeds except
the final ancestor propagation does not return success; the Propagate error
is returned to the caller. -/
theorem restoreRevision_propagateError_counterexample :
    (restoreRevision envPropFail stDel "s" "n1.REV.t1").res = .error (.fault "prop") ∧
    (restoreRevision envPropFail stDel "s" "n1.REV.t1").res ≠ .ok () := by
  refine ⟨rfl, ?_⟩
  intro h
  rw [show (restoreRevision envPropFail stDel "s" "n1.REV.t1").res =
    .error (.fault "prop") from rfl] at h
  simp at h

/-- Witness for the amended C8 at the same concrete run. -/
theorem restoreRevision_propagateError_amended_witness :
    (restoreRevision envPropFail stDel "s" "n1.REV.t1").res = .error (.fault "prop") ∧
    ¬ internalPath "s" (JoinRevisionKey "n1" "T0") ∈
      (restoreRevision envPropFail stDel "s" "n1.REV.t1").st.files :=
  restoreRevision_propagateError_amended envPropFail stDel "s" "n1.REV.t1" "n1" "t1" "T0"
    5 (.fault "prop") (by decide) rfl rfl rfl rfl rfl rfl rfl rfl rfl rfl rfl rfl
    (by decide) (by decide)

/-- Claim C5 (amended): ListRevisions, DownloadRevision and RestoreRevision
deny a missing permission with PermissionDenied when the caller may at least
Stat and with NotFound otherwise; DeleteRevision, which goes through
getRevisionNode, returns PermissionDenied unconditionally — even a caller
without Stat learns the node exists, which is the correction. -/
theorem permissionGate_amended :
    (∀ (env : Env) (st : Sys) (n : Node), n.nExists = true → env.permErr = none →
      env.perms.listFileVersions = false →
      listRevisions env st (.ok n) =
        (if env.perms.stat then .error (.permissionDenied env.refStr)
         else .error (.notFound env.refStr))) ∧
    (∀ (env : Env) (st : Sys) (spaceID revisionKey kp0 kp1 : String),
      splitRevKey? revisionKey = some (kp0, kp1) →
      (readNode st spaceID kp0).nExists = true → env.permErr = none →
      (env.perms.listFileVersions = false ∨ env.perms.initiateFileDownload = false) →
      (downloadRevision env st spaceID revisionKey).res =
        (if env.perms.stat then .error (.permissionDenied env.refStr)
         else .error (.notFound env.refStr))) ∧
    (∀ (env : Env) (st : Sys) (spaceID revisionKey kp0 kp1 : String),
      splitRevKey? revisionKey = some (kp0, kp1) →
      (readNode st spaceID kp0).nExists = true → env.permErr = none →
      env.perms.restoreFileVersion = false →
      (restoreRevision env st spaceID revisionKey).res =
        (if env.perms.stat then .error (.permissionDenied env.refStr)
         else .error (.notFound env.refStr))) ∧
    (∀ (env : Env) (st : Sys) (spaceID revisionKey kp0 kp1 : String),
      splitRevKey? revisionKey = some (kp0, kp1) →
      (readNode st spaceID kp0).nExists = true → env.permErr = none →
      env.perms.restoreFileVersion = false →
      (deleteRevision env st spaceID revisionKey).res =
        .error (.permissionDenied
          (pjoin (readNode st spaceID kp0).parentID (readNode st spaceID kp0).name))) := by
  refine ⟨?_, ?_, ?_, ?_⟩
  · intro env st n hex hpe hlv
    simp [listRevisions, hex, hpe, hlv]
  · intro env st spaceID revisionKey kp0 kp1 hsplit hex hpe hperm
    rcases hperm with hl | hd
    · simp [downloadRevision, hsplit, hex, hpe, hl, apply_ite]
    · simp [downloadRevision, hsplit, hex, hpe, hd, apply_ite]
  · intro env st spaceID revisionKey kp0 kp1 hsplit hex hpe hrp
    simp [restoreRevision, hsplit, hex, hpe, hrp, apply_ite]
  · intro env st spaceID revisionKey kp0 kp1 hsplit hex hpe hrp
    simp [deleteRevision, getRevisionNode, hsplit, hex, hpe, hrp]

/-- Claim C5 counterexample: DeleteRevision invoked by a caller lacking both
the RestoreFileVersion and the Stat permission returns PermissionDenied, not
NotFound — the node's existence is leaked. -/
theorem permissionGate_counterexample :
    envNoPerm.perms.stat = false ∧
    (deleteRevision envNoPerm stDel "s" "n1.REV.t1").res =
      .error (.permissionDenied (pjoin "p1" "f1")) ∧
    isNotFoundRes (deleteRevision envNoPerm stDel "s" "n1.REV.t1").res = false := by
  refine ⟨rfl, rfl, rfl⟩

/-- Witness for the amended C5 at the leaking DeleteRevision input. -/
theorem permissionGate_amended_witness :
    (deleteRevision envNoPerm stDel "s" "n1.REV.t1").res =
      .error (.permissionDenied
        (pjoin (readNode stDel "s" "n1").parentID (readNode stDel "s" "n1").name)) :=
  permissionGate_amended.2.2.2 envNoPerm stDel "s" "n1.REV.t1" "n1" "t1"
    (by decide) rfl rfl rfl

/-- Claim C9: for every starting node whose parent chain reaches the space
root in d steps, the Propagate walk needs no more than d steps of fuel (it
terminates, returning with no error), it never updates the root node's own
etag (the node-id comparison stops the loop before the root is processed),
and every node whose etag it rewrites lies on the walked chain strictly
below the root. -/
theorem propagate_stops_below_root (parent : String → Option String)
    (rootID etagNew n : String) (d : Nat) (etags : String → String)
    (hreach : ReachesRoot parent rootID n d) :
    ∃ etagsF, propGo parent rootID etagNew d n etags = some (etagsF, true) ∧
      etagsF rootID = etags rootID ∧
      (∀ x, etagsF x ≠ etags x → OnPath parent rootID n x ∧ x ≠ rootID) := by
  induction hreach generalizing etags with
  | root =>
    refine ⟨etags, ?_, rfl, fun x hx => absurd rfl hx⟩
    simp [propGo]
  | step hne hpar hrest ih =>
    rename_i nid p d2
    obtain ⟨etagsF, heq, hroot, hpath⟩ := ih (updF etags nid etagNew)
    refine ⟨etagsF, ?_, ?_, ?_⟩
    · simp [propGo, hne, hpar, heq]
    · rw [hroot, updF_other _ _ _ _ (fun e => hne e.symm)]
    · intro x hx
      by_cases hx2 : etagsF x = updF etags nid etagNew x
      · by_cases hxn : x = nid
        · subst hxn
          exact ⟨OnPath.here hne, hne⟩
        · rw [updF_other _ _ _ _ hxn] at hx2
          exact absurd hx2 hx
      · obtain ⟨hop, hxr⟩ := hpath x hx2
        exact ⟨OnPath.there hne hpar hop, hxr⟩

/-- Witness for C9 on the concrete chain a -> b -> r of depth 2. -/
theorem propagate_stops_below_root_witness :
    ∃ etagsF, propGo parW "r" "E" 2 "a" (fun _ => "e0") = some (etagsF, true) ∧
      etagsF "r" = (fun _ => "e0") "r" ∧
      (∀ x, etagsF x ≠ (fun _ => "e0") x → OnPath parW "r" "a" x ∧ x ≠ "r") :=
  propagate_stops_below_root parW "r" "E" "a" 2 (fun _ => "e0")
    (@ReachesRoot.step parW "r" "a" "b" 1 (by decide) (by decide)
      (@ReachesRoot.step parW "r" "b" "r" 0 (by decide) (by decide) ReachesRoot.root))

end Reva
